import Mathlib

/-!
Shallow embedding of the ChessInRust simulator (src/chess.rs): an 8×8 board
of optional pieces, a single-step pseudo-legal move generator, a first-move
selection policy, and a game loop driven by a time limit and a move limit.
Rust's `usize` coordinates become `Nat`; the signed intermediate coordinates
`ni`, `nj` (Rust `isize`) become `Int`; console output becomes a trace of
`Event`s; wall-clock sampling becomes an oracle `timeUp : Nat → Bool` telling
for each iteration whether `start_time.elapsed().as_secs() >= game_limit`.
A second, access-checked copy of the move generator and of move application
(`candidateMovesChecked`, `make_moveChecked`) makes every board indexing and
every `unwrap` explicit in an error monad, to settle the bounds-safety claim.
-/

namespace Chess

/-- `enum Piece` from src/chess.rs. -/
inductive Piece where
  | Pawn
  | Rook
  | Knight
  | Bishop
  | Queen
  | King
  deriving DecidableEq, Repr

/-- `enum Color` from src/chess.rs. -/
inductive Color where
  | White
  | Black
  deriving DecidableEq, Repr

/-- `struct ChessPiece { piece, color }` from src/chess.rs. -/
structure ChessPiece where
  piece : Piece
  color : Color
  deriving DecidableEq, Repr

/-- `type Board = [[Option<ChessPiece>; 8]; 8]`: the board as a function of
row and column; only indices below 8 are ever addressed by the program. -/
abbrev Board := Nat → Nat → Option ChessPiece

/-- A move `((usize, usize), (usize, usize))`: source then destination. -/
abbrev Move := (Nat × Nat) × (Nat × Nat)

/-- `struct Game { board, turn }` from src/chess.rs. -/
structure Game where
  board : Board
  turn : Color

/-- A single array assignment `board[i][j] = v`. -/
def setSquare (b : Board) (i j : Nat) (v : Option ChessPiece) : Board :=
  fun x y => if x = i ∧ y = j then v else b x y

/-- `let mut board: Board = [[None; 8]; 8];` -/
def emptyBoard : Board := fun _ _ => none

/-- The `back_rank` array of `Game::new`. -/
def back_rank : List Piece :=
  [Piece.Rook, Piece.Knight, Piece.Bishop, Piece.Queen,
   Piece.King, Piece.Bishop, Piece.Knight, Piece.Rook]

/-- `Game::new`: pawns on rows 1 (Black) and 6 (White), back ranks on rows 0
(Black) and 7 (White), White to move. -/
def Game.new : Game :=
  let b0 := (List.range 8).foldl (fun b i =>
    setSquare (setSquare b 1 i (some ⟨Piece.Pawn, Color.Black⟩))
      6 i (some ⟨Piece.Pawn, Color.White⟩)) emptyBoard
  let b1 := back_rank.enum.foldl (fun b p =>
    setSquare (setSquare b 0 p.1 (some ⟨p.2, Color.Black⟩))
      7 p.1 (some ⟨p.2, Color.White⟩)) b0
  { board := b1, turn := Color.White }

/-- The per-piece direction table of `Game::get_ai_move`. -/
def directions : Piece → List (Int × Int)
  | Piece.Pawn => [(1, 0), (-1, 0)]
  | Piece.Rook => [(1, 0), (-1, 0), (0, 1), (0, -1)]
  | Piece.Bishop => [(1, 1), (1, -1), (-1, 1), (-1, -1)]
  | Piece.Queen => [(1, 0), (-1, 0), (0, 1), (0, -1), (1, 1), (1, -1), (-1, 1), (-1, -1)]
  | Piece.King => [(1, 0), (-1, 0), (0, 1), (0, -1), (1, 1), (1, -1), (-1, 1), (-1, -1)]
  | Piece.Knight => [(2, 1), (2, -1), (-2, 1), (-2, -1), (1, 2), (1, -2), (-1, 2), (-1, -2)]

/-- The body of the direction loop of `Game::get_ai_move`: for a piece at
`(i, j)` and offset `d`, the candidate pushed onto `moves` (if any).
`ni`/`nj` are the `isize` intermediates; the bounds test guards the read of
the destination square, and the destination is accepted when empty or held
by the other color. -/
def step (b : Board) (piece : ChessPiece) (i j : Nat) (d : Int × Int) : Option Move :=
  let ni : Int := (i : Int) + d.1
  let nj : Int := (j : Int) + d.2
  if 0 ≤ ni ∧ ni < 8 ∧ 0 ≤ nj ∧ nj < 8 then
    match b ni.toNat nj.toNat with
    | none => some ((i, j), (ni.toNat, nj.toNat))
    | some q => if q.color ≠ piece.color then some ((i, j), (ni.toNat, nj.toNat)) else none
  else none

/-- The contribution of square `(i, j)` to the `moves` vector of
`Game::get_ai_move`: nothing unless the square holds a piece of the side to
move, else one entry per accepted direction, in table order. -/
def squareMoves (b : Board) (turn : Color) (i j : Nat) : List Move :=
  match b i j with
  | none => []
  | some piece =>
    if piece.color = turn then (directions piece.piece).filterMap (step b piece i j)
    else []

/-- The full `moves` vector of `Game::get_ai_move`: row-major scan of the
board, direction-table order within a square. -/
def candidateMoves (b : Board) (turn : Color) : List Move :=
  (List.range 8).flatMap fun i =>
    (List.range 8).flatMap fun j => squareMoves b turn i j

/-- `Game::get_ai_move`: `None` when `moves` is empty, else `Some(moves[0])`. -/
def get_ai_move (g : Game) : Option Move :=
  match candidateMoves g.board g.turn with
  | [] => none
  | m :: _ => some m

/-- `Game::make_move`: `board[to] = board[from]; board[from] = None;`. -/
def make_move (b : Board) (mv : Move) : Board :=
  setSquare (setSquare b mv.2.1 mv.2.2 (b mv.1.1 mv.1.2)) mv.1.1 mv.1.2 none

/-- `Game::switch_turn`. -/
def switch_turn : Color → Color
  | Color.White => Color.Black
  | Color.Black => Color.White

/-- `Game::is_checkmate`: `!self.get_ai_move().is_some()`. -/
def is_checkmate (g : Game) : Bool :=
  !(get_ai_move g).isSome

/-- The symbol table of `Game::display`. -/
def symbol (piece : Piece) (color : Color) : String :=
  match piece, color with
  | Piece.Pawn, Color.White => "P"
  | Piece.Pawn, Color.Black => "p"
  | Piece.Rook, Color.White => "R"
  | Piece.Rook, Color.Black => "r"
  | Piece.Knight, Color.White => "N"
  | Piece.Knight, Color.Black => "n"
  | Piece.Bishop, Color.White => "B"
  | Piece.Bishop, Color.Black => "b"
  | Piece.Queen, Color.White => "Q"
  | Piece.Queen, Color.Black => "q"
  | Piece.King, Color.White => "K"
  | Piece.King, Color.Black => "k"

/-- What `Game::display` prints for one square: `print!("{} ", symbol)` for a
piece, `print!(". ")` for an empty square. -/
def squareStr : Option ChessPiece → String
  | some cp => symbol cp.piece cp.color ++ " "
  | none => ". "

/-- One line of `Game::display` output: the row's squares, left to right. -/
def rowStr (b : Board) (i : Nat) : String :=
  String.join ((List.range 8).map fun j => squareStr (b i j))

/-- `Game::display` as the list of lines it prints: one line per row, then
the trailing `println!()` blank line. -/
def display (b : Board) : List String :=
  ((List.range 8).map fun i => rowStr b i) ++ [""]

/-- The observable console actions of `Game::play`: a board rendering or one
of the four termination messages. -/
inductive Event where
  | render (b : Board)
  | msgTimeLimit (limit : Nat)
  | msgMoveLimit (limit : Nat)
  | msgCheckmate (winner : Color)
  | msgNoMoves (side : Color)

/-- The loop of `Game::play`, from an iteration with `move_count` moves
already applied. `timeUp n` is the oracle for the wall-clock test
`start_time.elapsed().as_secs() >= game_limit` at the iteration whose move
count is `n`; the returned pair is the final game state and the emitted
event trace appended to `events`. -/
def playAux (timeUp : Nat → Bool) (game_limit move_limit : Nat)
    (g : Game) (move_count : Nat) (events : List Event) : Game × List Event :=
  if timeUp move_count then
    (g, events ++ [Event.msgTimeLimit game_limit])
  else if _h : move_limit ≤ move_count then
    (g, events ++ [Event.msgMoveLimit move_limit])
  else
    let events2 := events ++ [Event.render g.board]
    if is_checkmate g then
      (g, events2 ++ [Event.msgCheckmate (match g.turn with
        | Color.White => Color.Black
        | Color.Black => Color.White)])
    else
      match get_ai_move g with
      | some mv =>
        playAux timeUp game_limit move_limit
          ⟨make_move g.board mv, switch_turn g.turn⟩ (move_count + 1) events2
      | none => (g, events2 ++ [Event.msgNoMoves g.turn])
termination_by move_limit - move_count
decreasing_by simp_wf; omega

/-- `Game::play`: the loop started with `move_count = 0` and no output yet. -/
def play (g : Game) (timeUp : Nat → Bool) (game_limit move_limit : Nat) :
    Game × List Event :=
  playAux timeUp game_limit move_limit g 0 []

/-- A one-piece board used to exercise the move generator on concrete input. -/
def pawnBoard : Board := fun i j =>
  if i = 1 ∧ j = 1 then some ⟨Piece.Pawn, Color.White⟩ else none

/-- A checked read of `board[i][j]`: errors outside the 8×8 bounds,
modelling the Rust index panic. -/
def idx (b : Board) (i j : Nat) : Except String (Option ChessPiece) :=
  if i < 8 ∧ j < 8 then Except.ok (b i j) else Except.error "index out of bounds"

/-- `Option::unwrap`, modelling the panic on `None`. -/
def unwrapPiece : Option ChessPiece → Except String ChessPiece
  | some p => Except.ok p
  | none => Except.error "unwrap on None"

/-- A checked write `board[i][j] = v`. -/
def setChecked (b : Board) (i j : Nat) (v : Option ChessPiece) : Except String Board :=
  if i < 8 ∧ j < 8 then Except.ok (setSquare b i j v) else Except.error "index out of bounds"

/-- The direction-loop body with every board access checked, mirroring the
short-circuit `is_none() || unwrap().color != piece.color` of the source:
the destination square is read once for `is_none`, and read again and
unwrapped only when the first read saw a piece. -/
def stepChecked (b : Board) (piece : ChessPiece) (i j : Nat) (d : Int × Int) :
    Except String (Option Move) :=
  let ni : Int := (i : Int) + d.1
  let nj : Int := (j : Int) + d.2
  if 0 ≤ ni ∧ ni < 8 ∧ 0 ≤ nj ∧ nj < 8 then
    match idx b ni.toNat nj.toNat with
    | Except.error e => Except.error e
    | Except.ok sq =>
      if sq.isNone then Except.ok (some ((i, j), (ni.toNat, nj.toNat)))
      else
        match idx b ni.toNat nj.toNat with
        | Except.error e => Except.error e
        | Except.ok sq2 =>
          match unwrapPiece sq2 with
          | Except.error e => Except.error e
          | Except.ok q =>
            if q.color ≠ piece.color then Except.ok (some ((i, j), (ni.toNat, nj.toNat)))
            else Except.ok none
  else Except.ok none

/-- The `for &(di, dj) in &directions` loop with checked accesses, pushing
onto the accumulator `acc` as the source pushes onto `moves`. -/
def stepsChecked (b : Board) (piece : ChessPiece) (i j : Nat) :
    List (Int × Int) → List Move → Except String (List Move)
  | [], acc => Except.ok acc
  | d :: ds, acc =>
    match stepChecked b piece i j d with
    | Except.error e => Except.error e
    | Except.ok (some mv) => stepsChecked b piece i j ds (acc ++ [mv])
    | Except.ok none => stepsChecked b piece i j ds acc

/-- The body of the square scan with checked accesses: read `board[i][j]`,
and if it holds a piece of the side to move run the direction loop. -/
def squareMovesChecked (b : Board) (turn : Color) (i j : Nat) (acc : List Move) :
    Except String (List Move) :=
  match idx b i j with
  | Except.error e => Except.error e
  | Except.ok none => Except.ok acc
  | Except.ok (some piece) =>
    if piece.color = turn then stepsChecked b piece i j (directions piece.piece) acc
    else Except.ok acc

/-- The inner `for j in 0..8` loop with checked accesses. -/
def colsChecked (b : Board) (turn : Color) (i : Nat) :
    List Nat → List Move → Except String (List Move)
  | [], acc => Except.ok acc
  | j :: js, acc =>
    match squareMovesChecked b turn i j acc with
    | Except.error e => Except.error e
    | Except.ok acc2 => colsChecked b turn i js acc2

/-- The outer `for i in 0..8` loop with checked accesses. -/
def rowsChecked (b : Board) (turn : Color) :
    List Nat → List Move → Except String (List Move)
  | [], acc => Except.ok acc
  | i :: is2, acc =>
    match colsChecked b turn i (List.range 8) acc with
    | Except.error e => Except.error e
    | Except.ok acc2 => rowsChecked b turn is2 acc2

/-- The `moves` vector of `get_ai_move` computed with every board access
checked: an error marks an attempted out-of-range access or a bad unwrap. -/
def candidateMovesChecked (b : Board) (turn : Color) : Except String (List Move) :=
  rowsChecked b turn (List.range 8) []

/-- `Game::make_move` with both index writes and the index read checked. -/
def make_moveChecked (b : Board) (mv : Move) : Except String Board :=
  match idx b mv.1.1 mv.1.2 with
  | Except.error e => Except.error e
  | Except.ok sq =>
    match setChecked b mv.2.1 mv.2.2 sq with
    | Except.error e => Except.error e
    | Except.ok b2 => setChecked b2 mv.1.1 mv.1.2 none

/-- Characterization of a successful direction step of the move generator. -/
theorem step_eq_some {b : Board} {piece : ChessPiece} {i j : Nat} {d : Int × Int} {mv : Move} :
    step b piece i j d = some mv ↔
      0 ≤ (i : Int) + d.1 ∧ (i : Int) + d.1 < 8 ∧ 0 ≤ (j : Int) + d.2 ∧ (j : Int) + d.2 < 8 ∧
      (b ((i : Int) + d.1).toNat ((j : Int) + d.2).toNat = none ∨
        ∃ q, b ((i : Int) + d.1).toNat ((j : Int) + d.2).toNat = some q ∧ q.color ≠ piece.color) ∧
      mv = ((i, j), (((i : Int) + d.1).toNat, ((j : Int) + d.2).toNat)) := by
  unfold step
  dsimp only
  split
  · rename_i hbound
    obtain ⟨h1, h2, h3, h4⟩ := hbound
    cases hb : b ((i : Int) + d.1).toNat ((j : Int) + d.2).toNat with
    | none => simp [h1, h2, h3, h4, hb]; tauto
    | some q =>
      by_cases hq : q.color = piece.color
      · simp [h1, h2, h3, h4, hb, hq]
      · simp [h1, h2, h3, h4, hb, hq]; tauto
  · rename_i hbound
    simp; omega

/-- Membership in the generated candidate list, unfolded to the scan. -/
theorem mem_candidateMoves {b : Board} {turn : Color} {mv : Move} :
    mv ∈ candidateMoves b turn ↔
      ∃ i j piece d, i < 8 ∧ j < 8 ∧ b i j = some piece ∧ piece.color = turn ∧
        d ∈ directions piece.piece ∧ step b piece i j d = some mv := by
  unfold candidateMoves squareMoves
  simp only [List.mem_flatMap, List.mem_range, List.mem_filterMap]
  constructor
  · rintro ⟨i, hi, j, hj, hmem⟩
    cases hb : b i j with
    | none => rw [hb] at hmem; simp at hmem
    | some piece =>
      rw [hb] at hmem
      by_cases hc : piece.color = turn
      · simp only [hc, if_true, List.mem_filterMap] at hmem
        obtain ⟨d, hd, hstep⟩ := hmem
        exact ⟨i, j, piece, d, hi, hj, hb, hc, hd, hstep⟩
      · simp [hc] at hmem
  · rintro ⟨i, j, piece, d, hi, hj, hb, hc, hd, hstep⟩
    refine ⟨i, hi, j, hj, ?_⟩
    rw [hb]
    simp only [hc, if_true, List.mem_filterMap]
    exact ⟨d, hd, hstep⟩

/-- Every candidate is in bounds, has a friendly source and a non-friendly
destination; shared backbone for the bounds/ownership and safety claims. -/
theorem candidate_props (b : Board) (turn : Color) (mv : Move)
    (hmem : mv ∈ candidateMoves b turn) :
    (mv.1.1 < 8 ∧ mv.1.2 < 8 ∧ mv.2.1 < 8 ∧ mv.2.2 < 8) ∧
    (∃ p, b mv.1.1 mv.1.2 = some p ∧ p.color = turn) ∧
    (b mv.2.1 mv.2.2 = none ∨
      ∃ q, b mv.2.1 mv.2.2 = some q ∧ q.color ≠ turn ∧ q.color = switch_turn turn) := by
  obtain ⟨i, j, piece, d, hi, hj, hb, hc, hd, hstep⟩ := mem_candidateMoves.mp hmem
  obtain ⟨h1, h2, h3, h4, hocc, hmv⟩ := step_eq_some.mp hstep
  subst hmv
  refine ⟨⟨hi, hj, ?_, ?_⟩, ⟨piece, hb, hc⟩, ?_⟩
  · show ((i : Int) + d.1).toNat < 8
    omega
  · show ((j : Int) + d.2).toNat < 8
    omega
  rcases hocc with h | ⟨q, hq, hne⟩
  · exact Or.inl h
  · refine Or.inr ⟨q, hq, ?_, ?_⟩
    · rw [← hc]; exact hne
    · subst hc
      cases hq1 : q.color <;> cases hp1 : piece.color <;> simp_all [switch_turn]

/-- The inline turn match in the checkmate message equals `switch_turn`. -/
theorem matchTurn_eq_switch (c : Color) :
    (match c with | Color.White => Color.Black | Color.Black => Color.White) = switch_turn c := by
  cases c <;> rfl

/-- One loop iteration that reaches the checkmate test with no candidate
moves renders, reports checkmate for the other side, and stops. -/
theorem checkmate_step (timeUp : Nat → Bool) (gl ml : Nat) (g : Game) (mc : Nat)
    (ev : List Event) (ht : timeUp mc = false) (hm : mc < ml)
    (hn : get_ai_move g = none) :
    playAux timeUp gl ml g mc ev =
      (g, ev ++ [Event.render g.board, Event.msgCheckmate (switch_turn g.turn)]) := by
  have hcm : is_checkmate g = true := by simp [is_checkmate, hn]
  rw [playAux]
  rw [ht]
  simp only [Bool.false_eq_true, if_false]
  rw [dif_neg (by omega)]
  simp only [hcm, if_true, matchTurn_eq_switch, List.append_assoc]
  rfl

/-- One loop iteration with a nonempty candidate list renders, applies the
first candidate, switches the turn and increments the move count. -/
theorem apply_first_step (timeUp : Nat → Bool) (gl ml : Nat) (g : Game) (mc : Nat)
    (ev : List Event) (m : Move) (l : List Move) (ht : timeUp mc = false) (hm : mc < ml)
    (hc : candidateMoves g.board g.turn = m :: l) :
    playAux timeUp gl ml g mc ev =
      playAux timeUp gl ml ⟨make_move g.board m, switch_turn g.turn⟩ (mc + 1)
        (ev ++ [Event.render g.board]) := by
  have hg : get_ai_move g = some m := by unfold get_ai_move; rw [hc]
  have hcm : is_checkmate g = false := by simp [is_checkmate, hg]
  conv_lhs => rw [playAux]
  rw [ht]
  simp only [Bool.false_eq_true, if_false]
  rw [dif_neg (by omega)]
  simp only [hcm, Bool.false_eq_true, if_false, hg]

/-- Splitting membership in a one-element extension of a trace. -/
theorem push_mem {x y : Event} {ev : List Event} (h : x ∈ ev ++ [y]) :
    x ∈ ev ∨ x = y := by
  rcases List.mem_append.mp h with h1 | h1
  · exact Or.inl h1
  · exact Or.inr (List.mem_singleton.mp h1)

/-- The no-more-moves message of the loop is unreachable: any `msgNoMoves`
in the output trace was already in the starting trace. -/
theorem noMoves_not_emitted (timeUp : Nat → Bool) (gl ml : Nat) :
    ∀ n g mc ev s, ml - mc = n →
      Event.msgNoMoves s ∈ (playAux timeUp gl ml g mc ev).2 →
      Event.msgNoMoves s ∈ ev := by
  intro n
  induction n using Nat.strong_induction_on with
  | _ n ih =>
    intro g mc ev s hn hmem
    rw [playAux] at hmem
    by_cases ht : timeUp mc = true
    · rw [if_pos ht] at hmem
      rcases push_mem hmem with h | h
      · exact h
      · exact Event.noConfusion h
    · rw [if_neg ht] at hmem
      by_cases hml : ml ≤ mc
      · rw [dif_pos hml] at hmem
        rcases push_mem hmem with h | h
        · exact h
        · exact Event.noConfusion h
      · rw [dif_neg hml] at hmem
        dsimp only at hmem
        by_cases hcm : is_checkmate g = true
        · rw [if_pos hcm] at hmem
          rcases push_mem hmem with h | h
          · rcases push_mem h with h2 | h2
            · exact h2
            · exact Event.noConfusion h2
          · exact Event.noConfusion h
        · rw [if_neg hcm] at hmem
          cases hg : get_ai_move g with
          | some mv =>
            rw [hg] at hmem
            dsimp only at hmem
            have hrec := ih (ml - (mc + 1)) (by omega) _ (mc + 1) _ s rfl hmem
            rcases push_mem hrec with h | h
            · exact h
            · exact Event.noConfusion h
          | none =>
            exfalso
            apply hcm
            simp [is_checkmate, hg]

/-- Every direction-table offset is nonzero. -/
theorem directions_ne_zero (p : Piece) (d : Int × Int) (hd : d ∈ directions p) :
    d ≠ (0, 0) := by
  intro heq
  subst heq
  revert hd
  cases p <;> decide

/-- An in-bounds checked read succeeds and returns the square. -/
theorem idx_ok {b : Board} {i j : Nat} (hi : i < 8) (hj : j < 8) :
    idx b i j = Except.ok (b i j) := by
  unfold idx
  rw [if_pos ⟨hi, hj⟩]

/-- The checked direction step never errors and agrees with the plain one. -/
theorem stepChecked_ok (b : Board) (piece : ChessPiece) (i j : Nat) (d : Int × Int) :
    stepChecked b piece i j d = Except.ok (step b piece i j d) := by
  unfold stepChecked step
  dsimp only
  by_cases hb : 0 ≤ (i : Int) + d.1 ∧ (i : Int) + d.1 < 8 ∧ 0 ≤ (j : Int) + d.2 ∧ (j : Int) + d.2 < 8
  · rw [if_pos hb, if_pos hb]
    obtain ⟨h1, h2, h3, h4⟩ := hb
    rw [idx_ok (by omega) (by omega)]
    cases hsq : b ((i : Int) + d.1).toNat ((j : Int) + d.2).toNat with
    | none => rfl
    | some q =>
      by_cases hq : q.color = piece.color
      · simp [unwrapPiece, hq]
      · simp [unwrapPiece, hq]
  · rw [if_neg hb, if_neg hb]

/-- The checked direction loop never errors and accumulates the filterMap. -/
theorem stepsChecked_ok (b : Board) (piece : ChessPiece) (i j : Nat) :
    ∀ (ds : List (Int × Int)) (acc : List Move),
      stepsChecked b piece i j ds acc =
        Except.ok (acc ++ ds.filterMap (step b piece i j)) := by
  intro ds
  induction ds with
  | nil => intro acc; simp [stepsChecked]
  | cons d ds ih =>
    intro acc
    unfold stepsChecked
    rw [stepChecked_ok]
    cases hs : step b piece i j d with
    | none =>
      show stepsChecked b piece i j ds acc = _
      rw [ih]
      simp [List.filterMap_cons, hs]
    | some mv =>
      show stepsChecked b piece i j ds (acc ++ [mv]) = _
      rw [ih]
      simp [List.filterMap_cons, hs]

/-- The checked square scan never errors for in-bounds coordinates. -/
theorem squareMovesChecked_ok (b : Board) (turn : Color) (i j : Nat)
    (hi : i < 8) (hj : j < 8) (acc : List Move) :
    squareMovesChecked b turn i j acc = Except.ok (acc ++ squareMoves b turn i j) := by
  unfold squareMovesChecked squareMoves
  rw [idx_ok hi hj]
  cases hb : b i j with
  | none => simp
  | some piece =>
    show (if piece.color = turn then stepsChecked b piece i j (directions piece.piece) acc
        else Except.ok acc) = _
    by_cases hc : piece.color = turn
    · rw [if_pos hc, stepsChecked_ok]
      simp [hc]
    · rw [if_neg hc]
      simp [hc]

/-- The checked inner column loop never errors over in-bounds columns. -/
theorem colsChecked_ok (b : Board) (turn : Color) (i : Nat) (hi : i < 8) :
    ∀ (js : List Nat), (∀ j ∈ js, j < 8) → ∀ (acc : List Move),
      colsChecked b turn i js acc =
        Except.ok (acc ++ js.flatMap (squareMoves b turn i)) := by
  intro js
  induction js with
  | nil => intro _ acc; simp [colsChecked]
  | cons j js ih =>
    intro hjs acc
    unfold colsChecked
    rw [squareMovesChecked_ok b turn i j hi (hjs j (List.mem_cons_self j js)) acc]
    show colsChecked b turn i js (acc ++ squareMoves b turn i j) = _
    rw [ih (fun x hx => hjs x (List.mem_cons_of_mem j hx))]
    simp

/-- The checked outer row loop never errors over in-bounds rows. -/
theorem rowsChecked_ok (b : Board) (turn : Color) :
    ∀ (is2 : List Nat), (∀ i ∈ is2, i < 8) → ∀ (acc : List Move),
      rowsChecked b turn is2 acc =
        Except.ok (acc ++ is2.flatMap (fun i => (List.range 8).flatMap
          (squareMoves b turn i))) := by
  intro is2
  induction is2 with
  | nil => intro _ acc; simp [rowsChecked]
  | cons i is2 ih =>
    intro his acc
    unfold rowsChecked
    rw [colsChecked_ok b turn i (his i (List.mem_cons_self i is2)) (List.range 8)
      (fun x hx => List.mem_range.mp hx) acc]
    show rowsChecked b turn is2 (acc ++ (List.range 8).flatMap (squareMoves b turn i)) = _
    rw [ih (fun x hx => his x (List.mem_cons_of_mem i hx))]
    simp

/-- C1: for every game state at which the loop passes the time and
move-limit checks, if the move generator returns no move for the side to
move then the loop terminates reporting checkmate and names the opposite
side as winner; and the separate no-more-moves branch after move retrieval
is never reached: no `msgNoMoves` event ever appears in a play trace. -/
theorem no_moves_terminal_is_checkmate :
    (∀ (timeUp : Nat → Bool) (gl ml : Nat) (g : Game) (mc : Nat) (ev : List Event),
      timeUp mc = false → mc < ml → get_ai_move g = none →
      playAux timeUp gl ml g mc ev =
        (g, ev ++ [Event.render g.board, Event.msgCheckmate (switch_turn g.turn)])) ∧
    (∀ (timeUp : Nat → Bool) (gl ml : Nat) (g : Game) (s : Color),
      Event.msgNoMoves s ∉ (play g timeUp gl ml).2) := by
  constructor
  · exact checkmate_step
  · intro timeUp gl ml g s hmem
    have := noMoves_not_emitted timeUp gl ml (ml - 0) g 0 [] s rfl hmem
    cases this

theorem no_moves_terminal_is_checkmate_witness :
    get_ai_move ⟨emptyBoard, Color.White⟩ = none ∧
    playAux (fun _ => false) 300 1 ⟨emptyBoard, Color.White⟩ 0 [] =
      (⟨emptyBoard, Color.White⟩,
        [Event.render emptyBoard, Event.msgCheckmate Color.Black]) ∧
    Event.msgNoMoves Color.White ∉
      (play ⟨emptyBoard, Color.White⟩ (fun _ => false) 300 1).2 := by
  refine ⟨by decide, ?_, ?_⟩
  · exact no_moves_terminal_is_checkmate.1 (fun _ => false) 300 1
      ⟨emptyBoard, Color.White⟩ 0 [] rfl (by decide) (by decide)
  · exact no_moves_terminal_is_checkmate.2 (fun _ => false) 300 1
      ⟨emptyBoard, Color.White⟩ Color.White

/-- C2: every candidate move has source and destination within the board,
its source holds a piece of the side to move, and its destination is empty
or holds a piece of the opposite side, never of the same side. -/
theorem candidate_bounds_and_ownership (b : Board) (turn : Color) (mv : Move)
    (hmem : mv ∈ candidateMoves b turn) :
    (mv.1.1 < 8 ∧ mv.1.2 < 8 ∧ mv.2.1 < 8 ∧ mv.2.2 < 8) ∧
    (∃ p, b mv.1.1 mv.1.2 = some p ∧ p.color = turn) ∧
    (b mv.2.1 mv.2.2 = none ∨
      ∃ q, b mv.2.1 mv.2.2 = some q ∧ q.color ≠ turn ∧ q.color = switch_turn turn) :=
  candidate_props b turn mv hmem

theorem c2_witness :
    (((6, 0), (5, 0)) : Move) ∈ candidateMoves Game.new.board Color.White ∧
    ((6 < 8 ∧ 0 < 8 ∧ 5 < 8 ∧ 0 < 8) ∧
     (∃ p, Game.new.board 6 0 = some p ∧ p.color = Color.White) ∧
     (Game.new.board 5 0 = none ∨
       ∃ q, Game.new.board 5 0 = some q ∧ q.color ≠ Color.White ∧
         q.color = switch_turn Color.White)) :=
  ⟨by decide, candidate_bounds_and_ownership Game.new.board Color.White ((6, 0), (5, 0)) (by decide)⟩

/-- C3: the generator returns the head of the candidate list (`none` exactly
when the list is empty), and the loop applies exactly that first candidate. -/
theorem first_candidate_policy :
    (∀ g : Game, candidateMoves g.board g.turn = [] → get_ai_move g = none) ∧
    (∀ (g : Game) (m : Move) (l : List Move),
      candidateMoves g.board g.turn = m :: l → get_ai_move g = some m) ∧
    (∀ (timeUp : Nat → Bool) (gl ml : Nat) (g : Game) (mc : Nat) (ev : List Event)
      (m : Move) (l : List Move),
      timeUp mc = false → mc < ml → candidateMoves g.board g.turn = m :: l →
      playAux timeUp gl ml g mc ev =
        playAux timeUp gl ml ⟨make_move g.board m, switch_turn g.turn⟩ (mc + 1)
          (ev ++ [Event.render g.board])) := by
  refine ⟨?_, ?_, apply_first_step⟩
  · intro g h
    unfold get_ai_move
    rw [h]
  · intro g m l h
    unfold get_ai_move
    rw [h]

theorem first_candidate_policy_witness :
    candidateMoves pawnBoard Color.White = [((1, 1), (2, 1)), ((1, 1), (0, 1))] ∧
    get_ai_move ⟨pawnBoard, Color.White⟩ = some ((1, 1), (2, 1)) ∧
    playAux (fun _ => false) 300 5 ⟨pawnBoard, Color.White⟩ 0 [] =
      playAux (fun _ => false) 300 5
        ⟨make_move pawnBoard ((1, 1), (2, 1)), switch_turn Color.White⟩ 1
        ([] ++ [Event.render pawnBoard]) := by
  refine ⟨by decide, ?_, ?_⟩
  · exact first_candidate_policy.2.1 ⟨pawnBoard, Color.White⟩ ((1, 1), (2, 1))
      [((1, 1), (0, 1))] (by decide)
  · exact first_candidate_policy.2.2 (fun _ => false) 300 5 ⟨pawnBoard, Color.White⟩ 0 []
      ((1, 1), (2, 1)) [((1, 1), (0, 1))] rfl (by decide) (by decide)

/-- C4: the freshly created game has the standard initial setup and White to
move: pawns on rows 1 (Black) and 6 (White), the back ranks on rows 0 and 7
in the order Rook, Knight, Bishop, Queen, King, Bishop, Knight, Rook, and
every other square empty. -/
theorem initial_setup :
    Game.new.turn = Color.White ∧
    (∀ j < 8, Game.new.board 1 j = some ⟨Piece.Pawn, Color.Black⟩ ∧
              Game.new.board 6 j = some ⟨Piece.Pawn, Color.White⟩) ∧
    ((List.range 8).map fun j => Game.new.board 0 j) =
      [some ⟨Piece.Rook, Color.Black⟩, some ⟨Piece.Knight, Color.Black⟩,
       some ⟨Piece.Bishop, Color.Black⟩, some ⟨Piece.Queen, Color.Black⟩,
       some ⟨Piece.King, Color.Black⟩, some ⟨Piece.Bishop, Color.Black⟩,
       some ⟨Piece.Knight, Color.Black⟩, some ⟨Piece.Rook, Color.Black⟩] ∧
    ((List.range 8).map fun j => Game.new.board 7 j) =
      [some ⟨Piece.Rook, Color.White⟩, some ⟨Piece.Knight, Color.White⟩,
       some ⟨Piece.Bishop, Color.White⟩, some ⟨Piece.Queen, Color.White⟩,
       some ⟨Piece.King, Color.White⟩, some ⟨Piece.Bishop, Color.White⟩,
       some ⟨Piece.Knight, Color.White⟩, some ⟨Piece.Rook, Color.White⟩] ∧
    (∀ i < 8, ∀ j < 8, 2 ≤ i → i ≤ 5 → Game.new.board i j = none) := by
  decide

theorem initial_setup_witness :
    Game.new.board 1 0 = some ⟨Piece.Pawn, Color.Black⟩ ∧
    Game.new.board 4 4 = none :=
  ⟨(initial_setup.2.1 0 (by decide)).1,
   initial_setup.2.2.2.2 4 (by decide) 4 (by decide) (by decide) (by decide)⟩

/-- C5 counterexample: for the move ((1,1),(1,1)) on a board with a pawn at
(1,1), the occupant formerly at the source is not at the destination after
`make_move` — the square ends empty — so the claim fails for src = dst. -/
theorem move_application_counterexample :
    ¬ (make_move pawnBoard ((1, 1), (1, 1)) 1 1 = pawnBoard 1 1) := by
  decide

/-- C5 (amended): for every board and every move (src, dst) with src ≠ dst,
after `make_move` the occupant formerly at src is at dst and src is empty,
regardless of what previously occupied dst. -/
theorem move_application (b : Board) (fx fy tx ty : Nat)
    (h : (fx, fy) ≠ (tx, ty)) :
    make_move b ((fx, fy), (tx, ty)) tx ty = b fx fy ∧
    make_move b ((fx, fy), (tx, ty)) fx fy = none := by
  have hne : ¬ (tx = fx ∧ ty = fy) := by
    rintro ⟨h1, h2⟩
    exact h (by rw [h1, h2])
  constructor
  · simp [make_move, setSquare, hne]
  · simp [make_move, setSquare]

theorem move_application_witness :
    ((1, 1) : Nat × Nat) ≠ ((2, 1) : Nat × Nat) ∧
    make_move pawnBoard ((1, 1), (2, 1)) 2 1 = pawnBoard 1 1 ∧
    make_move pawnBoard ((1, 1), (2, 1)) 1 1 = none :=
  ⟨by decide,
   (move_application pawnBoard 1 1 2 1 (by decide)).1,
   (move_application pawnBoard 1 1 2 1 (by decide)).2⟩

/-- C6 counterexample: with time limit 300 and move limit 0 the loop stops
with only the move-limit message — the board is rendered zero times, not
once. -/
theorem scenario_a_counterexample :
    (play Game.new (fun _ => false) 300 0).2 = [Event.msgMoveLimit 0] ∧
    Event.render Game.new.board ∉ (play Game.new (fun _ => false) 300 0).2 := by
  have h : (play Game.new (fun _ => false) 300 0).2 = [Event.msgMoveLimit 0] := by
    unfold play
    rw [playAux]
    simp
  refine ⟨h, ?_⟩
  rw [h]
  intro hmem
  exact Event.noConfusion (List.mem_singleton.mp hmem)

/-- C6 (amended): running the loop on a fresh game with time limit 300 and
move limit 0, when the elapsed-time check does not fire, stops immediately
reporting the move-limit message, renders the board zero times, and leaves
the game unchanged from the initial setup. -/
theorem scenario_a (timeUp : Nat → Bool) (h : timeUp 0 = false) :
    play Game.new timeUp 300 0 = (Game.new, [Event.msgMoveLimit 0]) := by
  unfold play
  rw [playAux, h]
  simp

theorem scenario_a_witness :
    play Game.new (fun _ => false) 300 0 = (Game.new, [Event.msgMoveLimit 0]) :=
  scenario_a (fun _ => false) rfl

/-- C7: the move generator is a deterministic pure function of the board and
the side to move: equal board and turn give the identical candidate list and
the identical selected move; the embedding of the borrowed game state is
read-only, so no call mutates it. -/
theorem generator_deterministic (g g2 : Game) (hb : g2.board = g.board)
    (ht : g2.turn = g.turn) :
    candidateMoves g2.board g2.turn = candidateMoves g.board g.turn ∧
    get_ai_move g2 = get_ai_move g := by
  constructor
  · rw [hb, ht]
  · unfold get_ai_move
    rw [hb, ht]

theorem generator_deterministic_witness :
    candidateMoves pawnBoard Color.White = candidateMoves pawnBoard Color.White ∧
    get_ai_move ⟨pawnBoard, Color.White⟩ = get_ai_move ⟨pawnBoard, Color.White⟩ :=
  generator_deterministic ⟨pawnBoard, Color.White⟩ ⟨pawnBoard, Color.White⟩ rfl rfl

/-- C8: every board access of the move generator is bounds-checked before it
happens and the destination unwrap only runs on a known-occupied square:
the fully checked generator never errors and agrees with the plain one, and
applying a generated move never indexes out of range either. -/
theorem bounds_checked_access :
    (∀ (b : Board) (turn : Color),
      candidateMovesChecked b turn = Except.ok (candidateMoves b turn)) ∧
    (∀ (g : Game) (mv : Move), get_ai_move g = some mv →
      make_moveChecked g.board mv = Except.ok (make_move g.board mv)) := by
  constructor
  · intro b turn
    unfold candidateMovesChecked candidateMoves
    rw [rowsChecked_ok b turn (List.range 8) (fun x hx => List.mem_range.mp hx) []]
    simp
  · intro g mv hg
    have hmem : mv ∈ candidateMoves g.board g.turn := by
      unfold get_ai_move at hg
      cases hc : candidateMoves g.board g.turn with
      | nil => rw [hc] at hg; cases hg
      | cons m l =>
        rw [hc] at hg
        injection hg with h2
        rw [← h2]
        exact List.mem_cons_self m l
    obtain ⟨⟨hsx, hsy, hdx, hdy⟩, _, _⟩ := candidate_props g.board g.turn mv hmem
    unfold make_moveChecked make_move
    simp [idx, setChecked, hsx, hsy, hdx, hdy]

theorem bounds_checked_access_witness :
    candidateMovesChecked pawnBoard Color.White =
      Except.ok (candidateMoves pawnBoard Color.White) ∧
    get_ai_move ⟨pawnBoard, Color.White⟩ = some ((1, 1), (2, 1)) ∧
    make_moveChecked pawnBoard ((1, 1), (2, 1)) =
      Except.ok (make_move pawnBoard ((1, 1), (2, 1))) :=
  ⟨bounds_checked_access.1 pawnBoard Color.White,
   by decide,
   bounds_checked_access.2 ⟨pawnBoard, Color.White⟩ ((1, 1), (2, 1)) (by decide)⟩

/-- C9: renderer output shape: each occupied square is shown as a single
letter P/R/N/B/Q/K, uppercase for White, lowercase for Black, followed by a
separator space; each empty square as the single placeholder character and
a space; one line per board row, with a trailing blank line. -/
theorem renderer_output :
    (symbol Piece.Pawn Color.White = "P" ∧ symbol Piece.Pawn Color.Black = "p" ∧
     symbol Piece.Rook Color.White = "R" ∧ symbol Piece.Rook Color.Black = "r" ∧
     symbol Piece.Knight Color.White = "N" ∧ symbol Piece.Knight Color.Black = "n" ∧
     symbol Piece.Bishop Color.White = "B" ∧ symbol Piece.Bishop Color.Black = "b" ∧
     symbol Piece.Queen Color.White = "Q" ∧ symbol Piece.Queen Color.Black = "q" ∧
     symbol Piece.King Color.White = "K" ∧ symbol Piece.King Color.Black = "k") ∧
    (∀ p c, (symbol p c).length = 1) ∧
    (∀ cp : ChessPiece, squareStr (some cp) = symbol cp.piece cp.color ++ " ") ∧
    (squareStr none = "." ++ " " ∧ ("." : String).length = 1) ∧
    (∀ b : Board, (display b).length = 9 ∧
      (display b).getLast? = some "" ∧
      ∀ i, i < 8 → (display b)[i]? = some (rowStr b i)) := by
  refine ⟨by decide, ?_, ?_, by decide, ?_⟩
  · intro p c
    cases p <;> cases c <;> rfl
  · intro cp
    rfl
  · intro b
    refine ⟨by simp [display], ?_, ?_⟩
    · simp [display]
    · intro i hi
      unfold display
      rw [List.getElem?_append]
      simp [hi]

theorem renderer_output_witness :
    ((symbol Piece.Queen Color.Black).length = 1) ∧
    squareStr (some ⟨Piece.Queen, Color.Black⟩) = symbol Piece.Queen Color.Black ++ " " ∧
    (display emptyBoard).length = 9 ∧
    (display emptyBoard)[0]? = some (rowStr emptyBoard 0) :=
  ⟨renderer_output.2.1 Piece.Queen Color.Black,
   renderer_output.2.2.1 ⟨Piece.Queen, Color.Black⟩,
   (renderer_output.2.2.2.2 emptyBoard).1,
   (renderer_output.2.2.2.2 emptyBoard).2.2 0 (by decide)⟩

/-- C10: a `make_move` call with source equal to destination leaves the
square empty (the destination is first overwritten with the source occupant
and the source is then cleared), and the move generator never produces such
a move because every direction offset is nonzero. -/
theorem self_move_clears_square :
    (∀ (b : Board) (x y : Nat), make_move b ((x, y), (x, y)) x y = none) ∧
    (∀ (p : Piece) (d : Int × Int), d ∈ directions p → d ≠ (0, 0)) ∧
    (∀ (b : Board) (turn : Color) (mv : Move),
      mv ∈ candidateMoves b turn → mv.1 ≠ mv.2) := by
  refine ⟨?_, directions_ne_zero, ?_⟩
  · intro b x y
    simp [make_move, setSquare]
  · intro b turn mv hmem heq
    obtain ⟨i, j, piece, d, hi, hj, hb, hc, hd, hstep⟩ := mem_candidateMoves.mp hmem
    obtain ⟨d1, d2⟩ := d
    obtain ⟨h1, h2, h3, h4, hocc, hmv⟩ := step_eq_some.mp hstep
    subst hmv
    dsimp only at heq
    simp only [Prod.mk.injEq] at heq
    obtain ⟨hx, hy⟩ := heq
    have hd1 : d1 = 0 := by omega
    have hd2 : d2 = 0 := by omega
    exact directions_ne_zero piece.piece (d1, d2) hd (by rw [hd1, hd2])

theorem self_move_clears_square_witness :
    make_move pawnBoard ((1, 1), (1, 1)) 1 1 = none ∧
    ((1, 0) : Int × Int) ≠ (0, 0) ∧
    (((1, 1), (2, 1)) : Move).1 ≠ (((1, 1), (2, 1)) : Move).2 :=
  ⟨self_move_clears_square.1 pawnBoard 1 1,
   self_move_clears_square.2.1 Piece.Pawn (1, 0) (by decide),
   self_move_clears_square.2.2 pawnBoard Color.White ((1, 1), (2, 1)) (by decide)⟩

end Chess
